import Mathlib

/-!
# Verification of the spacelabs-firestoreorm core

A shallow embedding, in Lean 4, of the transaction-coordination and
write-batching core of the `spacelabs-firestoreorm` TypeScript library
(`FirestoreRepository`, `TransactionContext`, `parseFirestoreError`,
`commitInChunks`), together with theorems settling the frozen claims
about its natural-language specification.

Documents are modelled as association lists of fields (JS objects with
flat values), the store as an association list from ids to documents,
and the asynchronous methods as pure functions returning an explicit
outcome record (result-or-error, resulting store, issued batch commits,
fired lifecycle hooks).  Effectful callbacks (transaction bodies, user
hooks) are modelled as data: a transaction callback is a list of
commands, a user hook registry is a function from event and payload to
success-or-error.
-/

set_option autoImplicit false

namespace SpacelabsOrm

/-- A JS primitive value stored in a document field. -/
inductive Value where
  | str (s : String)
  | num (n : Int)
  | bool (b : Bool)
  | null
  deriving DecidableEq, Repr

/-- A document: a JS object, modelled as an association list from field
names to values (first binding of a key is its value). -/
abbrev Doc := List (String × Value)

/-- Field lookup on a document (`obj[k]`): the first binding wins. -/
def getField : Doc → String → Option Value
  | [], _ => none
  | p :: d, k => if p.1 = k then some p.2 else getField d k

/-- Setting one field, preserving JS object-spread key order: an
existing key is overwritten in place, a new key is appended. -/
def setField (d : Doc) (k : String) (v : Value) : Doc :=
  if d.any (fun p => p.1 = k) then
    d.map (fun p => if p.1 = k then (k, v) else p)
  else
    d ++ [(k, v)]

/-- JS object spread `\x7b ...a, ...b \x7d`: every top-level binding of `b`
overwrites the same-named binding of `a`. -/
def mergeDocs (a b : Doc) : Doc :=
  b.foldl (fun acc p => setField acc p.1 p.2) a

/-- The stored collection: an association list from document ids to
document data (data never contains the id itself, as in Firestore). -/
abbrev Store := List (String × Doc)

/-- Lookup of a document snapshot by id. -/
def Store.get? (s : Store) (id : String) : Option Doc :=
  (s.find? (fun p => p.1 == id)).map Prod.snd

/-- Overwrite-or-insert of a document (Firestore `set` without merge). -/
def Store.set (s : Store) (id : String) (d : Doc) : Store :=
  if s.any (fun p => p.1 == id) then
    s.map (fun p => if p.1 == id then (id, d) else p)
  else
    s ++ [(id, d)]

/-- Removal of a document (Firestore `delete`; deleting an absent id is
a no-op, as in Firestore). -/
def Store.erase (s : Store) (id : String) : Store :=
  s.filter (fun p => p.1 != id)

/-- The JS truthiness test `data?.deletedAt` used by the soft-delete
filters: `null` (and an absent field) is falsy, anything else truthy. -/
def isSoftDeleted (d : Doc) : Bool :=
  match getField d "deletedAt" with
  | some Value.null => false
  | some _ => true
  | none => false

/-- One Zod validation issue: a field path and a message. -/
structure Issue where
  path : List String
  message : String
  deriving DecidableEq, Repr

/-- A store-native (gRPC-shaped) error object: a numeric `code` and an
optional `details` string, as inspected by `parseFirestoreError`. -/
structure NativeError where
  code : Int
  details : Option String
  deriving DecidableEq, Repr

/-- Every error value that can travel through the library: the typed
classes of `Errors.ts`, the plain JS `Error` (used, e.g., by the
transaction ordering guard), and an untranslated store-native error. -/
inductive AppError where
  | notFound (msg : String)
  | validation (issues : List Issue)
  | conflict (msg : String)
  | indexRequired (indexUrl : String) (fields : List String)
  | jsError (msg : String)
  | native (e : NativeError)
  deriving DecidableEq, Repr

/-- Does the character list start with the pattern? -/
def startsWithChars : List Char → List Char → Bool
  | _, [] => true
  | [], _ :: _ => false
  | c :: s, p :: ps => c = p && startsWithChars s ps

/-- The suffix of the character list at the first occurrence of the
pattern, if any. -/
def suffixAtMatch : List Char → List Char → Option (List Char)
  | [], pat => if startsWithChars [] pat then some [] else none
  | c :: rest, pat =>
      if startsWithChars (c :: rest) pat then some (c :: rest)
      else suffixAtMatch rest pat

/-- JS `String.prototype.includes`: substring containment. -/
def strContains (s pat : String) : Bool :=
  (suffixAtMatch s.data pat.data).isSome

/-- Split a character list at every comma (JS `split(',')`). -/
def splitAtCommas : List Char → List Char → List (List Char)
  | [], acc => [acc.reverse]
  | c :: rest, acc =>
      if c = ',' then acc.reverse :: splitAtCommas rest []
      else splitAtCommas rest (c :: acc)

/-- JS `String.prototype.trim` on a character list. -/
def trimChars (cs : List Char) : List Char :=
  ((cs.dropWhile Char.isWhitespace).reverse.dropWhile Char.isWhitespace).reverse

/-- `extractIndexUrl` of `ErrorParser.ts`: the first regex match of
`https://console.firebase.google.com[^\s]+` in the details, or `""`. -/
def extractIndexUrl (details : String) : String :=
  let pre := "https://console.firebase.google.com"
  match suffixAtMatch details.data pre.data with
  | none => ""
  | some suffix =>
      let tok := (suffix.drop pre.data.length).takeWhile (fun c => !c.isWhitespace)
      if tok.isEmpty then "" else pre ++ String.mk tok

/-- `extractFields` of `ErrorParser.ts`: the comma-separated, trimmed
field list inside the first `on fields [...]` group of the details, or
`["multiple fields"]` when the pattern does not match. -/
def extractFields (details : String) : List String :=
  match suffixAtMatch details.data "on fields [".data with
  | none => ["multiple fields"]
  | some suffix =>
      let after := suffix.drop "on fields [".data.length
      if (suffixAtMatch after [']']).isSome then
        (splitAtCommas (after.takeWhile (fun c => !(c = ']'))) []).map
          (fun cs => String.mk (trimChars cs))
      else ["multiple fields"]

/-- `parseFirestoreError` of `ErrorParser.ts`: a native error with
`code === 9` whose details mention `requires an index` becomes a
`FirestoreIndexError`; every other error is returned unchanged. -/
def parseFirestoreError (err : AppError) : AppError :=
  match err with
  | .native e =>
      match e.details with
      | some d =>
          if e.code = 9 ∧ strContains d "requires an index" = true then
            .indexRequired (extractIndexUrl d) (extractFields d)
          else .native e
      | none => .native e
  | e => e

/-! ## BatchWriter: `commitInChunks` (`FirestoreRepository`, part_002
lines 990-1008)

The source iterates the action list, applying each action to the open
`WriteBatch`, and awaits a `batch.commit()` each time the counter
reaches 500, plus one final commit for a non-empty remainder.  A batch
is modelled as the list of actions applied to it, the procedure as the
ordered list of committed batches. -/

/-- The loop of `commitInChunks`: remaining actions, open batch, the
counter, and the commits already issued. -/
def commitInChunksGo {α : Type} : List α → List α → Nat → List (List α) → List (List α)
  | [], batch, counter, commits =>
      if counter > 0 then commits ++ [batch] else commits
  | a :: rest, batch, counter, commits =>
      let batch' := batch ++ [a]
      let counter' := counter + 1
      if counter' == 500 then commitInChunksGo rest [] 0 (commits ++ [batch'])
      else commitInChunksGo rest batch' counter' commits

/-- `FirestoreRepository.commitInChunks`: the ordered list of batch
commits issued for an action list. -/
def commitInChunks {α : Type} (actions : List α) : List (List α) :=
  commitInChunksGo actions [] 0 []

/-! ## Validation gate (`Validation.ts`)

The Zod validator is consumed as a black box: `parseCreate`/`parseUpdate`
either return the (possibly transformed) document or fail with a list of
issues (a thrown `ZodError`, which the repository converts into a
`ValidationError`). -/

/-- A validator strategy object (`Validator<T>` of `Validation.ts`). -/
structure Validator where
  parseCreate : Doc → Except (List Issue) Doc
  parseUpdate : Doc → Except (List Issue) Doc

/-- `this.validator ? this.validator.parseCreate(data) : data`. -/
def runParseCreate (v : Option Validator) (d : Doc) : Except (List Issue) Doc :=
  match v with
  | some vl => vl.parseCreate d
  | none => .ok d

/-- `this.validator ? this.validator.parseUpdate(data) : data`. -/
def runParseUpdate (v : Option Validator) (d : Doc) : Except (List Issue) Doc :=
  match v with
  | some vl => vl.parseUpdate d
  | none => .ok d

/-! ## Hook registry

The repository keeps, per lifecycle event, an ordered list of user
callbacks and `runHooks` awaits them in order.  The observable effect of
one `runHooks(event, data)` call is the pair (event, payload); the user
callbacks themselves are external effectful code, modelled, where their
success or failure matters, by a function from event and payload to
success-or-error. -/

/-- The closed enumeration of lifecycle hook events. -/
inductive HookEvent where
  | beforeCreate | afterCreate
  | beforeSoftDelete | afterSoftDelete
  | beforeUpdate | afterUpdate
  | beforeDelete | afterDelete
  | beforeRestore | afterRestore
  | beforeBulkCreate | afterBulkCreate
  | beforeBulkUpdate | afterBulkUpdate
  | beforeBulkDelete | afterBulkDelete
  | beforeBulkSoftDelete | afterBulkSoftDelete
  | beforeBulkRestore | afterBulkRestore
  deriving DecidableEq, Repr

/-- The payload handed to a hook callback, per event family. -/
inductive HookArg where
  | one (d : Doc)
  | docs (ds : List Doc)
  | updates (us : List (String × Doc))
  | delBulk (ids : List String) (documents : List Doc)
  | softDelBulk (ids : List String) (documents : List Doc) (deletedAt : String)
  | restoreBulk (documents : List Doc)
  deriving DecidableEq, Repr

/-- One observed `runHooks(event, data)` invocation. -/
abbrev HookFiring := HookEvent × HookArg

/-- The combined behaviour of the user callbacks registered for an
event: succeed, or throw an error. -/
abbrev HookFn := HookEvent → HookArg → Except AppError Unit

/-! ## Batched write operations against the store

A `WriteBatch` action registered by the repository.  `applyBatchOp`
gives the store collaborator's semantics for each action; as in
Firestore, `update` on a missing document fails (code 5, NOT_FOUND) and
makes the whole batch commit fail, while `delete` of a missing document
and `set` are never errors. -/

/-- One operation registered on a `WriteBatch`. -/
inductive BatchOp where
  | set (id : String) (data : Doc)
  | setMerge (id : String) (data : Doc)
  | update (id : String) (patch : Doc)
  | del (id : String)
  deriving DecidableEq, Repr

/-- Is the operation a plain `batch.set`? -/
def BatchOp.isSet : BatchOp → Bool
  | .set _ _ => true
  | _ => false

/-- The store's semantics of one batch operation. -/
def applyBatchOp (st : Store) : BatchOp → Except NativeError Store
  | .set id d => .ok (st.set id d)
  | .setMerge id d => .ok (st.set id (mergeDocs ((st.get? id).getD []) d))
  | .update id patch =>
      match st.get? id with
      | some prev => .ok (st.set id (mergeDocs prev patch))
      | none => .error ⟨5, some ("NOT_FOUND: no document to update: " ++ id)⟩
  | .del id => .ok (st.erase id)

/-- One atomic `batch.commit()`: all operations apply, or the commit
fails and none do. -/
def applyBatch : Store → List BatchOp → Except NativeError Store
  | st, [] => .ok st
  | st, op :: ops =>
      match applyBatchOp st op with
      | .ok st' => applyBatch st' ops
      | .error e => .error e

/-- Sequentially awaited commits: a failing commit stops the sequence,
leaving earlier commits applied (the documented at-least-partial
completion of `commitInChunks`). -/
def applyCommits : Store → List (List BatchOp) → Store × Option NativeError
  | st, [] => (st, none)
  | st, c :: cs =>
      match applyBatch st c with
      | .ok st' => applyCommits st' cs
      | .error e => (st, some e)

/-- Firestore-generated document ids (`colRef.doc()`), as a supply
indexed by a counter. -/
def genId (n : Nat) : String := "gen-" ++ toString n

/-! ## Repository operations (part_002)

Each operation returns its result-or-error, the resulting store, the
batch commits it issued, and the hook invocations it performed, in
order. -/

deriving instance DecidableEq for Except

/-- Outcome of a single-document operation. -/
structure OpOut where
  res : Except AppError Doc
  store : Store
  fired : List HookFiring
  deriving DecidableEq, Repr

/-- Outcome of a bulk operation returning created documents. -/
structure BulkDocsOut where
  res : Except AppError (List Doc)
  store : Store
  commits : List (List BatchOp)
  fired : List HookFiring
  deriving DecidableEq, Repr

/-- Outcome of a bulk operation returning a count. -/
structure CountOut where
  res : Except AppError Nat
  store : Store
  commits : List (List BatchOp)
  fired : List HookFiring
  deriving DecidableEq, Repr

/-- `FirestoreRepository.getById` (part_002 lines 393-404). -/
def getById (store : Store) (id : String) (includeDeleted : Bool) : Option Doc :=
  match store.get? id with
  | none => none
  | some data =>
      if !includeDeleted && isSoftDeleted data then none
      else some (setField data "id" (.str id))

/-- The per-item loop of `bulkCreate`: validate, draw a fresh document
reference, stamp `deletedAt: null`, record the batch action and the
created document.  A validation failure aborts the whole loop with the
failing item's issues. -/
def bulkCreateLoop (v : Option Validator) :
    List Doc → Nat → List Doc → List BatchOp →
    Except (List Issue) (List Doc × List BatchOp × Nat)
  | [], n, created, actions => .ok (created, actions, n)
  | d :: rest, n, created, actions =>
      match runParseCreate v d with
      | .error issues => .error issues
      | .ok valid =>
          let docId := genId n
          let docData := setField valid "deletedAt" .null
          bulkCreateLoop v rest (n + 1)
            (created ++ [setField docData "id" (.str docId)])
            (actions ++ [.set docId docData])

/-- `FirestoreRepository.bulkCreate` (part_002 lines 346-369): validate
and prepare every item client-side, then fire `beforeBulkCreate`, commit
all actions through `commitInChunks`, fire `afterBulkCreate`. -/
def bulkCreate (v : Option Validator) (store : Store) (n : Nat)
    (dataArray : List Doc) : BulkDocsOut :=
  match bulkCreateLoop v dataArray n [] [] with
  | .error issues =>
      { res := .error (.validation issues), store := store, commits := [], fired := [] }
  | .ok (created, actions, _) =>
      let commits := commitInChunks actions
      let app := applyCommits store commits
      match app.2 with
      | some e =>
          { res := .error (parseFirestoreError (.native e)), store := app.1,
            commits := commits, fired := [(.beforeBulkCreate, .docs created)] }
      | none =>
          { res := .ok created, store := app.1, commits := commits,
            fired := [(.beforeBulkCreate, .docs created), (.afterBulkCreate, .docs created)] }

/-- The first validation failure over an item list, if any (the error
`bulkCreate`'s loop surfaces). -/
def firstCreateFailure (v : Option Validator) : List Doc → Option (List Issue)
  | [] => none
  | d :: rest =>
      match runParseCreate v d with
      | .error issues => some issues
      | .ok _ => firstCreateFailure v rest

/-- `FirestoreRepository.update` (part_002 lines 430-454): fetch, fail
with `NotFoundError` if absent, validate the partial, fire
`beforeUpdate` with the validated partial plus id, shallow-merge it onto
the snapshot, persist with merge semantics, fire `afterUpdate` with the
merged result, return it. -/
def update (v : Option Validator) (store : Store) (id : String) (patch : Doc) : OpOut :=
  match store.get? id with
  | none =>
      { res := .error (.notFound ("Document with id " ++ id ++ " not found")),
        store := store, fired := [] }
  | some snap =>
      match runParseUpdate v patch with
      | .error issues =>
          { res := .error (.validation issues), store := store, fired := [] }
      | .ok valid =>
          let toUpdate := setField valid "id" (.str id)
          let updated := mergeDocs snap toUpdate
          { res := .ok updated,
            store := store.set id (mergeDocs snap updated),
            fired := [(.beforeUpdate, .one toUpdate), (.afterUpdate, .one updated)] }

/-- `FirestoreRepository.upsert` (part_002 lines 542-564): `getById`
(with its default soft-delete filtering) decides between the update path
and the create-with-caller-id path; the latter is a plain `set` without
merge of the validated data stamped `deletedAt: null`. -/
def upsert (v : Option Validator) (store : Store) (id : String) (data : Doc) : OpOut :=
  match getById store id false with
  | some _ => update v store id data
  | none =>
      match runParseCreate v data with
      | .error issues =>
          { res := .error (.validation issues), store := store, fired := [] }
      | .ok valid =>
          let docToCreate := setField valid "deletedAt" .null
          let created := setField docToCreate "id" (.str id)
          { res := .ok created,
            store := store.set id docToCreate,
            fired := [(.beforeCreate, .one created), (.afterCreate, .one created)] }

/-- `FirestoreRepository.bulkDelete` (part_002 lines 628-665): fetch all
snapshots, keep only the existing ones, fire the bulk hooks with those,
and register one `batch.delete` per *existing* document. -/
def bulkDelete (store : Store) (ids : List String) : CountOut :=
  let snapshots := ids.map (fun id => (id, store.get? id))
  let existing := snapshots.filterMap (fun p => p.2.map (fun d => (p.1, d)))
  let docsData := existing.map (fun q => setField q.2 "id" (.str q.1))
  let existIds := existing.map Prod.fst
  if docsData.length == 0 then
    { res := .ok 0, store := store, commits := [], fired := [] }
  else
    let fired1 := [(HookEvent.beforeBulkDelete, HookArg.delBulk existIds docsData)]
    let actions := existIds.map (fun id => BatchOp.del id)
    let commits := commitInChunks actions
    let app := applyCommits store commits
    match app.2 with
    | some e =>
        { res := .error (parseFirestoreError (.native e)), store := app.1,
          commits := commits, fired := fired1 }
    | none =>
        { res := .ok docsData.length, store := app.1, commits := commits,
          fired := fired1 ++ [(.afterBulkDelete, .delBulk existIds docsData)] }

/-- `FirestoreRepository.bulkSoftDelete` (part_002 lines 723-761): fetch
all snapshots, keep the existing ones for the hooks and the returned
count, but register one `batch.update(docRef, \x7b deletedAt \x7d)` per
*input* id — the loop `for(const id of ids)` ranges over `ids`, not over
`docsData`. -/
def bulkSoftDelete (store : Store) (ids : List String) (now : String) : CountOut :=
  let snapshots := ids.map (fun id => (id, store.get? id))
  let existing := snapshots.filterMap (fun p => p.2.map (fun d => (p.1, d)))
  let docsData := existing.map (fun q => setField q.2 "id" (.str q.1))
  let existIds := existing.map Prod.fst
  if docsData.length == 0 then
    { res := .ok 0, store := store, commits := [], fired := [] }
  else
    let deletedAt := now
    let fired1 := [(HookEvent.beforeBulkSoftDelete,
        HookArg.softDelBulk existIds docsData deletedAt)]
    let actions := ids.map (fun id => BatchOp.update id [("deletedAt", .str deletedAt)])
    let commits := commitInChunks actions
    let app := applyCommits store commits
    match app.2 with
    | some e =>
        { res := .error (parseFirestoreError (.native e)), store := app.1,
          commits := commits, fired := fired1 }
    | none =>
        { res := .ok docsData.length, store := app.1, commits := commits,
          fired := fired1 ++ [(.afterBulkSoftDelete, .softDelBulk existIds docsData deletedAt)] }

/-! ## TransactionContext and runInTransaction (part_005)

The transaction callback is modelled as a list of commands; user hooks
as a `HookFn`.  The native transaction handle records, in order, the
reads and the writes the coordinator applies to it. -/

/-- The kind tag of a `QueuedWrite`. -/
inductive WriteKind where
  | create | update | delete
  deriving DecidableEq, Repr

/-- A write applied to the native transaction handle (`tx.set` with or
without merge, or `tx.delete`). -/
inductive TxWrite where
  | set (id : String) (data : Doc) (merge : Bool)
  | del (id : String)
  deriving DecidableEq, Repr

/-- A `QueuedWrite`: its kind, the captured handle write its `execute`
closure performs, and the captured after-commit hook invocation. -/
structure QueuedWrite where
  kind : WriteKind
  write : TxWrite
  afterCommitHook : Option HookFiring
  deriving DecidableEq, Repr

/-- The native transaction handle: reads performed and writes applied. -/
structure TxHandle where
  reads : List String
  writes : List TxWrite
  deriving DecidableEq, Repr

/-- The `TransactionContext` fields: write queue, collected after-commit
hooks, and the `hasExecutedWrites` flag. -/
structure TxCtx where
  writeQueue : List QueuedWrite
  afterCommitHooks : List HookFiring
  hasExecutedWrites : Bool
  deriving DecidableEq, Repr

/-- The full state threaded through a transaction callback: the context,
the native handle, and the id-generation counter. -/
structure CbState where
  ctx : TxCtx
  tx : TxHandle
  nextId : Nat
  deriving DecidableEq, Repr

/-- A fresh `TransactionContext` on a fresh handle. -/
def cbInit : CbState := ⟨⟨[], [], false⟩, ⟨[], []⟩, 0⟩

/-- `TransactionContext.get` (part_005 lines 55-63): guarded by
`hasExecutedWrites`, then an immediate `getForUpdate` read on the
handle. -/
def ctxGet (store : Store) (s : CbState) (id : String) (includeDeleted : Bool) :
    Except AppError (Option Doc × CbState) :=
  if s.ctx.hasExecutedWrites then
    .error (.jsError ("Cannot read after writes in transaction. " ++
      "Call all get() operations before create/update/delete."))
  else
    let s' := { s with tx := { s.tx with reads := s.tx.reads ++ [id] } }
    match store.get? id with
    | none => .ok (none, s')
    | some data =>
        if !includeDeleted && isSoftDeleted data then .ok (none, s')
        else .ok (some (setField data "id" (.str id)), s')

/-- `TransactionContext.create` (part_005 lines 68-81) together with
`prepareCreateInTransaction`: validate, draw a fresh id, stamp
`deletedAt: null`, run the before-create hooks, then queue the
`tx.set` and the after-create hook. -/
def ctxCreate (v : Option Validator) (hooks : HookFn) (s : CbState) (data : Doc) :
    Except AppError (Doc × CbState) :=
  match runParseCreate v data with
  | .error issues => .error (.validation issues)
  | .ok valid =>
      let docId := genId s.nextId
      let docData := setField valid "deletedAt" .null
      let created := setField docData "id" (.str docId)
      match hooks .beforeCreate (.one created) with
      | .error e => .error (parseFirestoreError e)
      | .ok _ =>
          .ok (created,
            { s with
              nextId := s.nextId + 1,
              ctx := { s.ctx with
                writeQueue := s.ctx.writeQueue ++
                  [⟨.create, .set docId docData false, some (.afterCreate, .one created)⟩] } })

/-- `TransactionContext.update` (part_005 lines 86-97) together with
`prepareUpdateInTransaction`: validate the partial, run the
before-update hooks with the partial plus id, then queue the merge
`tx.set` and the after-update hook. -/
def ctxUpdate (v : Option Validator) (hooks : HookFn) (s : CbState)
    (id : String) (patch : Doc) : Except AppError CbState :=
  match runParseUpdate v patch with
  | .error issues => .error (.validation issues)
  | .ok valid =>
      let toUpdate := setField valid "id" (.str id)
      match hooks .beforeUpdate (.one toUpdate) with
      | .error e => .error (parseFirestoreError e)
      | .ok _ =>
          .ok { s with ctx := { s.ctx with
                  writeQueue := s.ctx.writeQueue ++
                    [⟨.update, .set id valid true, some (.afterUpdate, .one toUpdate)⟩] } }

/-- `TransactionContext.delete` (part_005 lines 102-118) together with
`prepareDeleteInTransaction`: guarded by `hasExecutedWrites`, reads the
target through the handle, fails with `NotFoundError` if absent, runs
the before-delete hooks, then queues the `tx.delete` and the
after-delete hook. -/
def ctxDelete (store : Store) (hooks : HookFn) (s : CbState) (id : String) :
    Except AppError CbState :=
  if s.ctx.hasExecutedWrites then
    .error (.jsError "Cannot delete after writes have been flushed")
  else
    let s1 := { s with tx := { s.tx with reads := s.tx.reads ++ [id] } }
    match store.get? id with
    | none => .error (parseFirestoreError (.notFound ("Document with ID " ++ id ++ " not found")))
    | some data =>
        let docData := setField data "id" (.str id)
        match hooks .beforeDelete (.one docData) with
        | .error e => .error (parseFirestoreError e)
        | .ok _ =>
            .ok { s1 with ctx := { s1.ctx with
                    writeQueue := s1.ctx.writeQueue ++
                      [⟨.delete, .del id, some (.afterDelete, .one docData)⟩] } }

/-- A transaction callback, as the sequence of context operations it
performs; `fail e` models the callback throwing at that point. -/
inductive TxCmd where
  | get (id : String) (includeDeleted : Bool)
  | create (data : Doc)
  | update (id : String) (patch : Doc)
  | delete (id : String)
  | fail (e : AppError)
  deriving DecidableEq, Repr

/-- One callback step: dispatch a command to the context method it
invokes (discarding the value the callback received). -/
def stepCmd (store : Store) (v : Option Validator) (hooks : HookFn)
    (c : TxCmd) (s : CbState) : Except AppError CbState :=
  match c with
  | .get id incl =>
      match ctxGet store s id incl with
      | .error e => .error e
      | .ok r => .ok r.2
  | .create data =>
      match ctxCreate v hooks s data with
      | .error e => .error e
      | .ok r => .ok r.2
  | .update id patch => ctxUpdate v hooks s id patch
  | .delete id => ctxDelete store hooks s id
  | .fail e => .error e

/-- Running the callback: each command in order, stopping at the first
thrown error. -/
def execCmds (store : Store) (v : Option Validator) (hooks : HookFn) :
    List TxCmd → CbState → Except AppError CbState
  | [], s => .ok s
  | c :: cs, s =>
      match stepCmd store v hooks c s with
      | .error e => .error e
      | .ok s' => execCmds store v hooks cs s'

/-- One iteration of `flushWrites`: apply the queued write to the handle
and collect its after-commit hook. -/
def flushQueueStep (s : CbState) (w : QueuedWrite) : CbState :=
  { s with
    tx := { s.tx with writes := s.tx.writes ++ [w.write] },
    ctx := { s.ctx with afterCommitHooks := s.ctx.afterCommitHooks ++
        (match w.afterCommitHook with | some h => [h] | none => []) } }

/-- `TransactionContext.flushWrites` (part_005 lines 125-136): a no-op
when already flushed, otherwise applies every queued write to the handle
in enqueue order, collects the after-commit hooks, and raises the
`hasExecutedWrites` flag. -/
def flushWrites (s : CbState) : CbState :=
  if s.ctx.hasExecutedWrites then s
  else
    let s' := s.ctx.writeQueue.foldl flushQueueStep s
    { s' with ctx := { s'.ctx with hasExecutedWrites := true } }

/-- The store's semantics of one handle write at commit time (`tx.set`
with or without merge, `tx.delete`). -/
def applyTxWrite (st : Store) : TxWrite → Store
  | .set id d false => st.set id d
  | .set id d true => st.set id (mergeDocs ((st.get? id).getD []) d)
  | .del id => st.erase id

/-- The atomic commit of the native transaction: all handle writes
applied in order. -/
def commitTx (st : Store) (ws : List TxWrite) : Store :=
  ws.foldl applyTxWrite st

/-- One iteration of `runAfterCommitHooks` (part_005 lines 142-150):
run one hook, catch and log (collect) an individual failure, never
propagate it. -/
def afterHooksStep (hooks : HookFn) (acc : List HookFiring × List AppError)
    (h : HookFiring) : List HookFiring × List AppError :=
  match hooks h.1 h.2 with
  | .ok _ => (acc.1 ++ [h], acc.2)
  | .error e => (acc.1 ++ [h], acc.2 ++ [e])

/-- `TransactionContext.runAfterCommitHooks`, as a fold of
`afterHooksStep` over the collected hooks. -/
def runAfterCommitHooks (hooks : HookFn) (hs : List HookFiring) :
    List HookFiring × List AppError :=
  hs.foldl (afterHooksStep hooks) ([], [])

/-- The observable outcome of one `runInTransaction` call: the settled
result, the store after the native transaction, the after-commit hooks
that were run, and the hook errors that were caught and logged. -/
structure TxOutcome where
  result : Except AppError Value
  store : Store
  firedAfter : List HookFiring
  hookErrors : List AppError
  deriving DecidableEq, Repr

/-- `FirestoreRepository.runInTransaction` (part_005 lines 205-230): run
the callback on a fresh context, flush the queued writes, let the store
commit the native transaction (`commitOk` says whether that commit
succeeds), and only after a successful commit run the after-commit
hooks.  Any error is rethrown through `parseFirestoreError`; on any
error the native transaction rolls back, leaving the store unchanged. -/
def runInTransaction (store : Store) (v : Option Validator) (hooks : HookFn)
    (commitOk : Bool) (cmds : List TxCmd) (ret : Value) : TxOutcome :=
  match execCmds store v hooks cmds cbInit with
  | .error e => ⟨.error (parseFirestoreError e), store, [], []⟩
  | .ok s =>
      let s' := flushWrites s
      if commitOk then
        ⟨.ok ret, commitTx store s'.tx.writes,
         (runAfterCommitHooks hooks s'.ctx.afterCommitHooks).1,
         (runAfterCommitHooks hooks s'.ctx.afterCommitHooks).2⟩
      else
        ⟨.error (parseFirestoreError
            (.native ⟨10, some "ABORTED: transaction commit failed"⟩)), store, [], []⟩

/-! ## Concrete inputs used by the witnesses and counterexamples -/

/-- A hook registry whose callbacks all succeed. -/
def hooksOk : HookFn := fun _ _ => .ok ()

/-- A hook registry whose callbacks all throw. -/
def hooksBoom : HookFn := fun _ _ => .error (.jsError "hook boom")

/-- A validator requiring a non-empty string field `name`. -/
def nameValidator : Validator where
  parseCreate d :=
    match getField d "name" with
    | some (.str s) =>
        if s.isEmpty then .error [⟨["name"], "String must contain at least 1 character(s)"⟩]
        else .ok d
    | _ => .error [⟨["name"], "Required"⟩]
  parseUpdate d := .ok d

/-- Store for the transaction examples: two active documents. -/
def exStoreTx : Store :=
  [("A", [("x", .num 0), ("deletedAt", .null)]),
   ("B", [("y", .num 1), ("deletedAt", .null)])]

/-- The claim C1 example callback: `get(A)`, `get(B)`, `update(A, ...)`,
`create(C)`. -/
def exCmdsC1 : List TxCmd :=
  [.get "A" false, .get "B" false, .update "A" [("x", .num 7)], .create [("z", .num 2)]]

/-- The callback state after running the C1 example callback. -/
def exStateC1 : CbState :=
  ((execCmds exStoreTx none hooksOk exCmdsC1 cbInit).toOption).getD cbInit

/-- The claim C2 example callback: `create(...)` then `get(...)` in the
same callback. -/
def exCmdsC2 : List TxCmd :=
  [.create [("name", .str "Alice")], .get "A" false]

/-- The callback state after running the C2 example callback. -/
def exStateC2 : CbState :=
  ((execCmds exStoreTx none hooksOk exCmdsC2 cbInit).toOption).getD cbInit

/-- The claim C3 example callback: one queued write, then a thrown
error. -/
def exCmdsC3 : List TxCmd :=
  [.create [("name", .str "Alice")], .fail (.jsError "boom")]

/-- The claim C4 example callback: one queued write whose after-commit
hook will throw. -/
def exCmdsC4 : List TxCmd := [.create [("name", .str "Alice")]]

/-- The callback state after running the C4 example callback (with the
throwing hook registry; before-hooks of `hooksBoom` would abort, so the
C4 example uses `hooksOk` during the callback— see the witness, which
runs the whole transaction under a registry failing only on after
events). -/
def hooksAfterBoom : HookFn := fun ev _ =>
  match ev with
  | .afterCreate => .error (.jsError "after hook boom")
  | _ => .ok ()

/-- The callback state after running the C4 example callback. -/
def exStateC4 : CbState :=
  ((execCmds exStoreTx none hooksAfterBoom exCmdsC4 cbInit).toOption).getD cbInit

/-- Store for the bulk examples: one active document `a`. -/
def exStoreBulk : Store := [("a", [("name", .str "Alice"), ("deletedAt", .null)])]

/-- Timestamp used by the soft-delete example. -/
def exStamp : String := "2024-06-01T00:00:00.000Z"

/-- Store for the update example: `d1` has two fields. -/
def exStoreUpd : Store :=
  [("d1", [("a", .num 1), ("b", .num 2), ("deletedAt", .null)])]

/-- Partial update touching only field `b`. -/
def exPatchUpd : Doc := [("b", .num 3)]

/-- Store for the upsert example: `u1` exists but is soft-deleted and
has an extra field. -/
def exStoreUps : Store :=
  [("u1", [("name", .str "old"), ("extra", .num 5),
           ("deletedAt", .str "2024-01-01T00:00:00.000Z")])]

/-- Upsert payload touching only `name`. -/
def exDataUps : Doc := [("name", .str "new")]

/-- A store-native permission-denied error (code 7). -/
def exNativeDenied : NativeError :=
  ⟨7, some "7 PERMISSION_DENIED: Missing or insufficient permissions."⟩

/-- Details string of a store-native index-required error. -/
def exIndexDetails : String :=
  "The query requires an index. You can create it here: " ++
    "https://console.firebase.google.com/v1/r/project/demo/firestore/indexes?create=Ck" ++
    " on fields [status, createdAt]"

/-- A store-native index-required error (code 9). -/
def exNativeIndex : NativeError := ⟨9, some exIndexDetails⟩

theorem commitInChunksGo_length {α : Type} :
    ∀ (rest batch : List α) (counter : Nat) (commits : List (List α)),
      counter = batch.length → counter < 500 →
      (commitInChunksGo rest batch counter commits).length
        = commits.length + (counter + rest.length + 499) / 500 := by
  intro rest
  induction rest with
  | nil =>
      intro batch counter commits hc hlt
      simp only [commitInChunksGo]
      split
      · simp only [List.length_append, List.length_cons, List.length_nil]
        omega
      · simp only [List.length_nil]
        omega
  | cons a rest ih =>
      intro batch counter commits hc hlt
      simp only [commitInChunksGo]
      split
      · rename_i h500
        have : counter + 1 = 500 := by simpa using h500
        rw [ih [] 0 (commits ++ [batch ++ [a]]) rfl (by omega)]
        simp only [List.length_append, List.length_cons, List.length_nil]
        omega
      · rename_i h500
        have hne : counter + 1 ≠ 500 := by
          intro h
          exact h500 (by simp [h])
        rw [ih (batch ++ [a]) (counter + 1) commits (by simp [hc]) (by omega)]
        simp only [List.length_cons]
        omega

theorem commitInChunksGo_join {α : Type} :
    ∀ (rest batch : List α) (counter : Nat) (commits : List (List α)),
      counter = batch.length →
      (commitInChunksGo rest batch counter commits).flatten
        = commits.flatten ++ batch ++ rest := by
  intro rest
  induction rest with
  | nil =>
      intro batch counter commits hc
      simp only [commitInChunksGo]
      split
      · simp
      · rename_i h
        have : batch = [] := by
          have : counter = 0 := by omega
          have hb := hc.symm.trans this
          exact List.eq_nil_of_length_eq_zero hb
        simp [this]
  | cons a rest ih =>
      intro batch counter commits hc
      simp only [commitInChunksGo]
      split
      · rw [ih [] 0 (commits ++ [batch ++ [a]]) rfl]
        simp
      · rw [ih (batch ++ [a]) (counter + 1) commits (by simp [hc])]
        simp

theorem commitInChunksGo_sizes {α : Type} :
    ∀ (rest batch : List α) (counter : Nat) (commits : List (List α)),
      counter = batch.length → counter < 500 →
      (commits.all (fun b => b.length ≤ 500)) = true →
      ((commitInChunksGo rest batch counter commits).all
        (fun b => b.length ≤ 500)) = true := by
  intro rest
  induction rest with
  | nil =>
      intro batch counter commits hc hlt hall
      simp only [commitInChunksGo]
      split
      · simp only [List.all_append, List.all_cons, List.all_nil, Bool.and_true, hall,
          Bool.true_and, decide_eq_true_eq]
        omega
      · exact hall
  | cons a rest ih =>
      intro batch counter commits hc hlt hall
      simp only [commitInChunksGo]
      split
      · apply ih [] 0 _ rfl (by omega)
        simp only [List.all_append, List.all_cons, List.all_nil, Bool.and_true, hall,
          Bool.true_and, decide_eq_true_eq, List.length_append, List.length_cons,
          List.length_nil]
        omega
      · rename_i h500
        have hne : counter + 1 ≠ 500 := fun h => h500 (by simp [h])
        exact ih (batch ++ [a]) (counter + 1) commits (by simp [hc]) (by omega) hall

/-! ## Field-lookup lemmas for documents -/

theorem getField_append_pair (d : Doc) (k0 : String) (v0 : Value) (k : String) :
    getField (d ++ [(k0, v0)]) k
      = match getField d k with
        | some w => some w
        | none => if k0 = k then some v0 else none := by
  induction d with
  | nil => rfl
  | cons p rest ih =>
      rw [List.cons_append]
      show (if p.1 = k then some p.2 else getField (rest ++ [(k0, v0)]) k) = _
      by_cases h : p.1 = k <;> simp [getField, h, ih]

theorem getField_overwriteMap_ne (d : Doc) (k k' : String) (v : Value) (h : ¬ k' = k) :
    getField (d.map (fun q => if q.1 = k then (k, v) else q)) k' = getField d k' := by
  induction d with
  | nil => rfl
  | cons p rest ih =>
      rw [List.map_cons]
      by_cases hp : p.1 = k
      · have h1 : ¬ k = k' := fun hh => h hh.symm
        have h2 : ¬ p.1 = k' := fun hh => h (by rw [← hh]; exact hp)
        simp [getField, hp, h1, h2, ih]
      · simp [getField, hp, ih]

theorem getField_overwriteMap_self (d : Doc) (k : String) (v : Value) :
    getField (d.map (fun q => if q.1 = k then (k, v) else q)) k
      = if d.any (fun q => decide (q.1 = k)) then some v else none := by
  induction d with
  | nil => rfl
  | cons p rest ih =>
      rw [List.map_cons]
      by_cases hp : p.1 = k
      · simp [getField, hp]
      · have hd : decide (p.1 = k) = false := decide_eq_false hp
        rw [List.any_cons, hd, Bool.false_or, ← ih]
        simp [getField, hp]

theorem getField_eq_none_of_not_any (d : Doc) (k : String)
    (h : d.any (fun q => decide (q.1 = k)) = false) : getField d k = none := by
  induction d with
  | nil => rfl
  | cons p rest ih =>
      rw [List.any_cons] at h
      have h1 : decide (p.1 = k) = false := by
        cases h2 : decide (p.1 = k)
        · rfl
        · rw [h2] at h; simp at h
      have h2 : rest.any (fun q => decide (q.1 = k)) = false := by
        cases h3 : rest.any (fun q => decide (q.1 = k))
        · rfl
        · rw [h3] at h; simp at h
      have hp : ¬ p.1 = k := of_decide_eq_false h1
      simp [getField, hp, ih h2]

theorem getField_setField (d : Doc) (k k' : String) (v : Value) :
    getField (setField d k v) k' = if k' = k then some v else getField d k' := by
  unfold setField
  by_cases hk : k' = k
  · subst hk
    split
    · rename_i hany
      rw [getField_overwriteMap_self]
      simp_all
    · rename_i hany
      have hfalse : d.any (fun p => decide (p.1 = k')) = false := by
        cases h2 : d.any (fun p => decide (p.1 = k'))
        · rfl
        · exact absurd h2 hany
      rw [getField_append_pair]
      rw [getField_eq_none_of_not_any d k' hfalse]
  · split
    · rw [getField_overwriteMap_ne d k k' v hk]
    · rw [getField_append_pair]
      have hne : ¬ k = k' := fun hh => hk hh.symm
      cases hg : getField d k' <;> simp [hk, hg, hne]

theorem getField_isSome_mem_keys (d : Doc) (k : String) (w : Value)
    (h : getField d k = some w) : k ∈ d.map Prod.fst := by
  induction d with
  | nil => exact absurd h (by simp [getField])
  | cons p rest ih =>
      rw [List.map_cons]
      by_cases hp : p.1 = k
      · exact hp ▸ List.mem_cons_self _ _
      · rw [getField] at h
        rw [if_neg hp] at h
        exact List.mem_cons_of_mem _ (ih h)

theorem getField_mergeDocs (a b : Doc) (k : String)
    (hnd : (b.map Prod.fst).Nodup) :
    getField (mergeDocs a b) k
      = match getField b k with
        | some w => some w
        | none => getField a k := by
  induction b generalizing a with
  | nil => rfl
  | cons p rest ih =>
      rw [List.map_cons, List.nodup_cons] at hnd
      show getField (mergeDocs (setField a p.1 p.2) rest) k = _
      rw [ih _ hnd.2]
      by_cases hb : getField rest k = none
      · rw [hb, getField_setField]
        by_cases hk : k = p.1
        · simp [getField, hk, hb]
        · have h2 : ¬ p.1 = k := fun hh => hk hh.symm
          simp [getField, hk, h2, hb]
      · obtain ⟨w, hw⟩ := Option.ne_none_iff_exists'.mp hb
        rw [hw]
        have hp : ¬ p.1 = k := by
          intro hh
          exact hnd.1 (hh ▸ getField_isSome_mem_keys rest k w hw)
        simp [getField, hp, hw]

/-! ## Coordinator lemmas -/

theorem stepCmd_inv (store : Store) (v : Option Validator) (hooks : HookFn)
    (c : TxCmd) (s s' : CbState) (h : stepCmd store v hooks c s = .ok s') :
    s'.tx.writes = s.tx.writes
    ∧ s'.ctx.hasExecutedWrites = s.ctx.hasExecutedWrites
    ∧ s'.ctx.afterCommitHooks = s.ctx.afterCommitHooks := by
  cases c with
  | get id incl =>
      simp only [stepCmd, ctxGet] at h
      split at h
      · simp at h
      · rename_i r heq
        cases h
        split at heq
        · simp at heq
        · split at heq
          · cases heq
            exact ⟨rfl, rfl, rfl⟩
          · split at heq <;>
            · cases heq
              exact ⟨rfl, rfl, rfl⟩
  | create data =>
      simp only [stepCmd, ctxCreate] at h
      split at h
      · simp at h
      · rename_i r heq
        cases h
        split at heq
        · simp at heq
        · split at heq
          · simp at heq
          · cases heq
            exact ⟨rfl, rfl, rfl⟩
  | update id patch =>
      simp only [stepCmd, ctxUpdate] at h
      split at h
      · simp at h
      · split at h
        · simp at h
        · cases h
          exact ⟨rfl, rfl, rfl⟩
  | delete id =>
      simp only [stepCmd, ctxDelete] at h
      split at h
      · simp at h
      · split at h
        · simp at h
        · split at h
          · simp at h
          · cases h
            exact ⟨rfl, rfl, rfl⟩
  | fail e =>
      simp [stepCmd] at h

theorem execCmds_inv (store : Store) (v : Option Validator) (hooks : HookFn) :
    ∀ (cmds : List TxCmd) (s s' : CbState),
      execCmds store v hooks cmds s = .ok s' →
      s'.tx.writes = s.tx.writes
      ∧ s'.ctx.hasExecutedWrites = s.ctx.hasExecutedWrites
      ∧ s'.ctx.afterCommitHooks = s.ctx.afterCommitHooks := by
  intro cmds
  induction cmds with
  | nil =>
      intro s s' h
      simp only [execCmds] at h
      cases h
      exact ⟨rfl, rfl, rfl⟩
  | cons c cs ih =>
      intro s s' h
      simp only [execCmds] at h
      split at h
      · simp at h
      · rename_i s1 hs1
        obtain ⟨h1, h2, h3⟩ := stepCmd_inv store v hooks c s s1 hs1
        obtain ⟨h4, h5, h6⟩ := ih s1 s' h
        exact ⟨h4.trans h1, h5.trans h2, h6.trans h3⟩

theorem foldl_flushQueueStep (q : List QueuedWrite) :
    ∀ s : CbState,
      (q.foldl flushQueueStep s).tx.writes = s.tx.writes ++ q.map QueuedWrite.write
      ∧ (q.foldl flushQueueStep s).ctx.afterCommitHooks
          = s.ctx.afterCommitHooks ++ q.filterMap QueuedWrite.afterCommitHook
      ∧ (q.foldl flushQueueStep s).ctx.hasExecutedWrites = s.ctx.hasExecutedWrites := by
  induction q with
  | nil => intro s; simp
  | cons w q ih =>
      intro s
      rw [List.foldl_cons]
      obtain ⟨h1, h2, h3⟩ := ih (flushQueueStep s w)
      refine ⟨?_, ?_, ?_⟩
      · rw [h1]
        show (s.tx.writes ++ [w.write]) ++ q.map QueuedWrite.write = _
        rw [List.map_cons, List.append_assoc]
        rfl
      · rw [h2]
        show (s.ctx.afterCommitHooks ++
            (match w.afterCommitHook with | some h => [h] | none => []))
            ++ q.filterMap QueuedWrite.afterCommitHook = _
        cases hw : w.afterCommitHook with
        | some hk => simp [List.filterMap_cons, hw]
        | none => simp [List.filterMap_cons, hw]
      · exact h3

theorem flushWrites_spec (s : CbState) (h : s.ctx.hasExecutedWrites = false) :
    (flushWrites s).tx.writes = s.tx.writes ++ s.ctx.writeQueue.map QueuedWrite.write
    ∧ (flushWrites s).ctx.afterCommitHooks
        = s.ctx.afterCommitHooks ++ s.ctx.writeQueue.filterMap QueuedWrite.afterCommitHook
    ∧ (flushWrites s).ctx.hasExecutedWrites = true := by
  unfold flushWrites
  rw [if_neg (by simp [h])]
  obtain ⟨h1, h2, _⟩ := foldl_flushQueueStep s.ctx.writeQueue s
  exact ⟨h1, h2, rfl⟩

theorem flushWrites_flushWrites (s : CbState) :
    flushWrites (flushWrites s) = flushWrites s := by
  by_cases h : s.ctx.hasExecutedWrites
  · have he : flushWrites s = s := by unfold flushWrites; rw [if_pos h]
    rw [he, he]
  · have ht : (flushWrites s).ctx.hasExecutedWrites = true :=
      (flushWrites_spec s (by simpa using h)).2.2
    conv_lhs => rw [flushWrites]
    rw [if_pos ht]

theorem foldl_afterHooksStep (hooks : HookFn) (hs : List HookFiring) :
    ∀ acc : List HookFiring × List AppError,
      (hs.foldl (afterHooksStep hooks) acc).1 = acc.1 ++ hs := by
  induction hs with
  | nil => intro acc; simp
  | cons h hs ih =>
      intro acc
      rw [List.foldl_cons, ih]
      unfold afterHooksStep
      cases hooks h.1 h.2 <;> simp

theorem runAfterCommitHooks_fired (hooks : HookFn) (hs : List HookFiring) :
    (runAfterCommitHooks hooks hs).1 = hs := by
  unfold runAfterCommitHooks
  rw [foldl_afterHooksStep]
  rfl

/-! ## Claim theorems: the transaction coordinator -/

/-- C1. For a callback that completes normally, the native transaction
handle holds zero writes while the callback runs; the flush then applies
every queued write, exactly once each, in enqueue order (the handle's
write list is exactly the queue mapped to its writes); a second flush is
a no-op, and the store that `runInTransaction` commits is exactly the
result of applying those flushed writes. -/
theorem tx_writes_flushed_once_in_order (store : Store) (v : Option Validator)
    (hooks : HookFn) (cmds : List TxCmd) (ret : Value) (s : CbState)
    (h : execCmds store v hooks cmds cbInit = .ok s) :
    s.tx.writes = []
    ∧ s.ctx.hasExecutedWrites = false
    ∧ (flushWrites s).tx.writes = s.ctx.writeQueue.map QueuedWrite.write
    ∧ flushWrites (flushWrites s) = flushWrites s
    ∧ (runInTransaction store v hooks true cmds ret).store
        = commitTx store (s.ctx.writeQueue.map QueuedWrite.write) := by
  obtain ⟨h1, h2, _⟩ := execCmds_inv store v hooks cmds cbInit s h
  have h1' : s.tx.writes = [] := by rw [h1]; rfl
  have h2' : s.ctx.hasExecutedWrites = false := by rw [h2]; rfl
  have h3 : (flushWrites s).tx.writes = s.ctx.writeQueue.map QueuedWrite.write := by
    rw [(flushWrites_spec s h2').1, h1']
    rw [List.nil_append]
  refine ⟨h1', h2', h3, flushWrites_flushWrites s, ?_⟩
  show (match execCmds store v hooks cmds cbInit with
    | .error e => (⟨.error (parseFirestoreError e), store, [], []⟩ : TxOutcome)
    | .ok s => _).store = _
  rw [h]
  show commitTx store (flushWrites s).tx.writes = _
  rw [h3]

/-- C1 witness: the claim's example callback `get(A)`, `get(B)`,
`update(A, ...)`, `create(C)` — zero handle writes during the callback,
then exactly the two queued writes after the flush. -/
theorem tx_writes_flushed_once_in_order_witness :
    execCmds exStoreTx none hooksOk exCmdsC1 cbInit = .ok exStateC1
    ∧ exStateC1.tx.writes = []
    ∧ (flushWrites exStateC1).tx.writes = exStateC1.ctx.writeQueue.map QueuedWrite.write
    ∧ (flushWrites exStateC1).tx.writes.length = 2 := by
  have h : execCmds exStoreTx none hooksOk exCmdsC1 cbInit = .ok exStateC1 := by decide
  obtain ⟨h1, _, h3, _, _⟩ :=
    tx_writes_flushed_once_in_order exStoreTx none hooksOk exCmdsC1 .null exStateC1 h
  exact ⟨h, h1, h3, by decide⟩

/-- C2. The claim (and the usage documentation in part_005) says
`create()` followed by `get()` in the same callback must fail with an
ordering violation; the code only raises its guard after `flushWrites`
has run, which never happens during the callback.  Running the claim's
own failing example `create(...)` then `get(...)` succeeds: the `get` is
answered normally, one write sits in the queue, and the
`hasExecutedWrites` flag is still false; the guard fires only against
the flushed state. -/
theorem tx_read_after_issued_write_not_rejected :
    execCmds exStoreTx none hooksOk exCmdsC2 cbInit = .ok exStateC2
    ∧ exStateC2.ctx.writeQueue.length = 1
    ∧ exStateC2.ctx.hasExecutedWrites = false
    ∧ ctxGet exStoreTx (flushWrites exStateC2) "A" false
        = .error (.jsError ("Cannot read after writes in transaction. " ++
            "Call all get() operations before create/update/delete.")) := by
  refine ⟨by decide, by decide, by decide, by decide⟩

/-- C3. If the callback throws (with any writes already enqueued), the
whole native transaction is rolled back: the error is rethrown through
`parseFirestoreError`, the store is unchanged, and no after-commit hook
runs.  Likewise, if the native commit fails, the store is unchanged and
no after-commit hook runs. -/
theorem tx_atomic_rollback (store : Store) (v : Option Validator) (hooks : HookFn)
    (cmds : List TxCmd) (ret : Value) (b : Bool) :
    (∀ e, execCmds store v hooks cmds cbInit = .error e →
        runInTransaction store v hooks b cmds ret
          = ⟨.error (parseFirestoreError e), store, [], []⟩)
    ∧ (∀ s, execCmds store v hooks cmds cbInit = .ok s →
        runInTransaction store v hooks false cmds ret
          = ⟨.error (parseFirestoreError
              (.native ⟨10, some "ABORTED: transaction commit failed"⟩)), store, [], []⟩) := by
  constructor
  · intro e he
    unfold runInTransaction
    rw [he]
  · intro s hs
    unfold runInTransaction
    rw [hs]
    rfl

/-- C3 witness: a callback that enqueues one create and then throws —
the store is untouched and no after-hook fires; same for a failing
native commit. -/
theorem tx_atomic_rollback_witness :
    runInTransaction exStoreTx none hooksOk true exCmdsC3 .null
      = ⟨.error (.jsError "boom"), exStoreTx, [], []⟩
    ∧ runInTransaction exStoreTx none hooksAfterBoom false exCmdsC4 .null
      = ⟨.error (.native ⟨10, some "ABORTED: transaction commit failed"⟩), exStoreTx, [], []⟩ := by
  constructor
  · rw [(tx_atomic_rollback exStoreTx none hooksOk exCmdsC3 .null true).1
        (.jsError "boom") (by decide)]
    decide
  · rw [(tx_atomic_rollback exStoreTx none hooksAfterBoom exCmdsC4 .null false).2
        exStateC4 (by decide)]
    decide

/-- C4. When the callback completes and the native commit succeeds, the
coordinator runs every captured after-commit hook, in enqueue order
(the attempted list equals the queue's captured hooks), and the call
still resolves with the callback's result whatever the hooks do — any
individual hook failure is caught and collected, never propagated. -/
theorem tx_after_hook_isolation (store : Store) (v : Option Validator)
    (hooks : HookFn) (cmds : List TxCmd) (ret : Value) (s : CbState)
    (h : execCmds store v hooks cmds cbInit = .ok s) :
    (runInTransaction store v hooks true cmds ret).result = .ok ret
    ∧ (runInTransaction store v hooks true cmds ret).firedAfter
        = s.ctx.writeQueue.filterMap QueuedWrite.afterCommitHook := by
  obtain ⟨_, hinv2, hinv3⟩ := execCmds_inv store v hooks cmds cbInit s h
  have h2 : s.ctx.hasExecutedWrites = false := by rw [hinv2]; rfl
  have h0 : s.ctx.afterCommitHooks = [] := by rw [hinv3]; rfl
  have hhooks : (flushWrites s).ctx.afterCommitHooks
      = s.ctx.writeQueue.filterMap QueuedWrite.afterCommitHook := by
    rw [(flushWrites_spec s h2).2.1, h0, List.nil_append]
  constructor
  · show (match execCmds store v hooks cmds cbInit with
      | .error e => (⟨.error (parseFirestoreError e), store, [], []⟩ : TxOutcome)
      | .ok s => _).result = _
    rw [h]
    rfl
  · show (match execCmds store v hooks cmds cbInit with
      | .error e => (⟨.error (parseFirestoreError e), store, [], []⟩ : TxOutcome)
      | .ok s => _).firedAfter = _
    rw [h]
    show (runAfterCommitHooks hooks (flushWrites s).ctx.afterCommitHooks).1 = _
    rw [runAfterCommitHooks_fired, hhooks]

/-- C4 witness: a committed transaction whose only after-create hook
throws — the call still resolves with the callback's result, the hook
was attempted, and its error was caught and logged. -/
theorem tx_after_hook_isolation_witness :
    (runInTransaction exStoreTx none hooksAfterBoom true exCmdsC4 (.str "done")).result
      = .ok (.str "done")
    ∧ (runInTransaction exStoreTx none hooksAfterBoom true exCmdsC4 (.str "done")).firedAfter
        = exStateC4.ctx.writeQueue.filterMap QueuedWrite.afterCommitHook
    ∧ (runInTransaction exStoreTx none hooksAfterBoom true exCmdsC4 (.str "done")).firedAfter.length = 1
    ∧ (runInTransaction exStoreTx none hooksAfterBoom true exCmdsC4 (.str "done")).hookErrors
        = [.jsError "after hook boom"] := by
  obtain ⟨h1, h2⟩ := tx_after_hook_isolation exStoreTx none hooksAfterBoom exCmdsC4
    (.str "done") exStateC4 (by decide)
  exact ⟨h1, h2, by decide, by decide⟩

/-! ## Claim theorem: BatchWriter chunking -/

/-- C5. For every action list, `commitInChunks` issues exactly
`⌈N / 500⌉` commits (zero for an empty list), the committed batches
concatenate back to the original action list (all `N` actions applied,
in input order, each exactly once), and no batch exceeds the 500-op
cap.  Commits are issued sequentially, in list order. -/
theorem batch_chunking {α : Type} (actions : List α) :
    (commitInChunks actions).length = (actions.length + 499) / 500
    ∧ (commitInChunks actions).flatten = actions
    ∧ ((commitInChunks actions).all (fun b => b.length ≤ 500)) = true := by
  refine ⟨?_, ?_, ?_⟩
  · have := commitInChunksGo_length actions [] 0 [] rfl (by omega)
    simpa using this
  · have := commitInChunksGo_join actions [] 0 [] rfl
    simpa using this
  · exact commitInChunksGo_sizes actions [] 0 [] rfl (by omega) rfl

/-! ## Lemmas for bulkCreate -/

theorem bulkCreateLoop_error (v : Option Validator) :
    ∀ (ds : List Doc) (n : Nat) (created : List Doc) (actions : List BatchOp)
      (issues : List Issue),
      firstCreateFailure v ds = some issues →
      bulkCreateLoop v ds n created actions = .error issues := by
  intro ds
  induction ds with
  | nil =>
      intro n created actions issues h
      simp [firstCreateFailure] at h
  | cons d rest ih =>
      intro n created actions issues h
      rw [firstCreateFailure] at h
      rw [bulkCreateLoop]
      cases hv : runParseCreate v d with
      | error issues0 =>
          rw [hv] at h
          cases h
          rfl
      | ok valid =>
          rw [hv] at h
          exact ih _ _ _ _ h

theorem bulkCreateLoop_ok (v : Option Validator) :
    ∀ (ds : List Doc) (n : Nat) (created : List Doc) (actions : List BatchOp),
      firstCreateFailure v ds = none →
      ∃ created2 actions2,
        bulkCreateLoop v ds n created actions
          = .ok (created ++ created2, actions ++ actions2, n + ds.length)
        ∧ created2.length = ds.length
        ∧ actions2.length = ds.length
        ∧ (actions2.all BatchOp.isSet) = true := by
  intro ds
  induction ds with
  | nil =>
      intro n created actions _
      exact ⟨[], [], by simp [bulkCreateLoop], rfl, rfl, rfl⟩
  | cons d rest ih =>
      intro n created actions h
      rw [firstCreateFailure] at h
      cases hv : runParseCreate v d with
      | error issues0 => rw [hv] at h; cases h
      | ok valid =>
          rw [hv] at h
          obtain ⟨c2, a2, h1, h2, h3, h4⟩ :=
            ih (n + 1) (created ++ [setField (setField valid "deletedAt" .null) "id"
              (.str (genId n))]) (actions ++ [.set (genId n) (setField valid "deletedAt" .null)]) h
          refine ⟨setField (setField valid "deletedAt" .null) "id" (.str (genId n)) :: c2,
            .set (genId n) (setField valid "deletedAt" .null) :: a2, ?_, ?_, ?_, ?_⟩
          · rw [bulkCreateLoop, hv]
            show bulkCreateLoop v rest (n + 1)
                (created ++ [setField (setField valid "deletedAt" Value.null) "id"
                  (Value.str (genId n))])
                (actions ++ [BatchOp.set (genId n) (setField valid "deletedAt" Value.null)]) = _
            rw [h1]
            have hn : n + 1 + rest.length = n + (d :: rest).length := by
              rw [List.length_cons]
              omega
            rw [hn, List.append_assoc, List.append_assoc,
              List.singleton_append, List.singleton_append]
          · simp [h2]
          · simp [h3]
          · simp only [List.all_cons, h4, Bool.and_true]
            rfl

theorem applyBatch_all_sets :
    ∀ (ops : List BatchOp) (st : Store),
      (ops.all BatchOp.isSet) = true →
      ∃ st', applyBatch st ops = .ok st' := by
  intro ops
  induction ops with
  | nil => intro st _; exact ⟨st, rfl⟩
  | cons op rest ih =>
      intro st h
      rw [List.all_cons] at h
      have h1 : BatchOp.isSet op = true := by
        cases h2 : BatchOp.isSet op
        · rw [h2] at h; simp at h
        · rfl
      have h2 : (rest.all BatchOp.isSet) = true := by
        cases h3 : rest.all BatchOp.isSet
        · rw [h3] at h; simp at h
        · rfl
      cases op with
      | set id d =>
          obtain ⟨st', hst⟩ := ih (st.set id d) h2
          exact ⟨st', by rw [applyBatch]; exact hst⟩
      | setMerge id d => simp [BatchOp.isSet] at h1
      | update id patch => simp [BatchOp.isSet] at h1
      | del id => simp [BatchOp.isSet] at h1

theorem applyCommits_all_sets :
    ∀ (cs : List (List BatchOp)) (st : Store),
      (cs.all (fun c => c.all BatchOp.isSet)) = true →
      (applyCommits st cs).2 = none := by
  intro cs
  induction cs with
  | nil => intro st _; rfl
  | cons c rest ih =>
      intro st h
      rw [List.all_cons] at h
      have h1 : (c.all BatchOp.isSet) = true := by
        cases h2 : c.all BatchOp.isSet
        · rw [h2] at h; simp at h
        · rfl
      have h2 : (rest.all (fun c => c.all BatchOp.isSet)) = true := by
        cases h3 : rest.all (fun c => c.all BatchOp.isSet)
        · rw [h3] at h; simp at h
        · rfl
      obtain ⟨st', hst⟩ := applyBatch_all_sets c st h1
      rw [applyCommits, hst]
      exact ih st' h2

theorem all_of_flatten_all {α : Type} (p : α → Bool) :
    ∀ (cs : List (List α)), (cs.flatten.all p) = true →
      (cs.all (fun c => c.all p)) = true := by
  intro cs
  induction cs with
  | nil => intro _; rfl
  | cons c rest ih =>
      intro h
      rw [List.flatten_cons, List.all_append] at h
      rw [List.all_cons]
      have h1 : (c.all p) = true := by
        cases h2 : c.all p
        · rw [h2] at h; simp at h
        · rfl
      have h2 : (rest.flatten.all p) = true := by
        cases h3 : rest.flatten.all p
        · rw [h3] at h; simp at h
        · rfl
      rw [h1, ih h2]
      rfl

/-! ## Claim theorem: bulk validation atomicity -/

/-- C6. `bulkCreate` validates every item before any store call: when
some item fails validation, the whole call fails with the
`ValidationError` carrying the first failing item's issues (which name
the offending paths), with zero batch commits, zero store writes, and
no hooks fired.  When every item validates, each item gets an assigned
identifier, all writes are committed (the committed operations number
exactly the input items), and both bulk hooks fire with the prepared
array. -/
theorem bulk_validation_atomicity (v : Option Validator) (store : Store) (n : Nat)
    (dataArray : List Doc) :
    (∀ issues, firstCreateFailure v dataArray = some issues →
        bulkCreate v store n dataArray
          = { res := .error (.validation issues), store := store, commits := [], fired := [] })
    ∧ (firstCreateFailure v dataArray = none →
        ∃ created actions,
          bulkCreate v store n dataArray
            = { res := .ok created,
                store := (applyCommits store (commitInChunks actions)).1,
                commits := commitInChunks actions,
                fired := [(.beforeBulkCreate, .docs created), (.afterBulkCreate, .docs created)] }
          ∧ created.length = dataArray.length
          ∧ (commitInChunks actions).flatten.length = dataArray.length) := by
  constructor
  · intro issues h
    unfold bulkCreate
    rw [bulkCreateLoop_error v dataArray n [] [] issues h]
  · intro h
    obtain ⟨created, actions, h1, h2, h3, h4⟩ := bulkCreateLoop_ok v dataArray n [] [] h
    simp only [List.nil_append] at h1
    have hchunks : ((commitInChunks actions).all (fun c => c.all BatchOp.isSet)) = true := by
      apply all_of_flatten_all
      rw [(batch_chunking actions).2.1]
      exact h4
    have happ : (applyCommits store (commitInChunks actions)).2 = none :=
      applyCommits_all_sets (commitInChunks actions) store hchunks
    refine ⟨created, actions, ?_, h2, ?_⟩
    · unfold bulkCreate
      rw [h1]
      show (match (applyCommits store (commitInChunks actions)).2 with
        | some e => _
        | none => _) = _
      rw [happ]
    · rw [(batch_chunking actions).2.1]
      exact h3

/-- C6 witness: `bulkCreate([validItem, invalidItem])` under a schema
requiring a non-empty `name` — zero commits, store unchanged, no hooks,
and a `ValidationError` naming the `name` path of the invalid item. -/
theorem bulk_validation_atomicity_witness :
    bulkCreate (some nameValidator) exStoreBulk 0
        [[("name", .str "Bob")], [("name", .str "")]]
      = { res := .error (.validation
            [⟨["name"], "String must contain at least 1 character(s)"⟩]),
          store := exStoreBulk, commits := [], fired := [] } := by
  exact (bulk_validation_atomicity (some nameValidator) exStoreBulk 0
      [[("name", .str "Bob")], [("name", .str "")]]).1
    [⟨["name"], "String must contain at least 1 character(s)"⟩] (by decide)

/-! ## Claim theorems: error translation (C7) -/

/-- C7 counterexample. The claim says a bare untranslated store-native
error is never propagated; but `parseFirestoreError` returns any
non-index native error unchanged, and, e.g., a failing native commit in
`runInTransaction` therefore surfaces the bare store error (code 10) to
the caller, not a typed `StoreFailure`. -/
theorem untranslated_store_error_reaches_caller :
    parseFirestoreError (.native exNativeDenied) = .native exNativeDenied
    ∧ (runInTransaction exStoreTx none hooksOk false [] .null).result
        = .error (.native ⟨10, some "ABORTED: transaction commit failed"⟩) := by
  refine ⟨by decide, by decide⟩

/-- C7 (amended). `parseFirestoreError` translates exactly the
index-required store errors (`code === 9` with `requires an index` in
the details) into `FirestoreIndexError`; every other error — including
any other store-native error — is returned unchanged, so such store
errors propagate untranslated.  The typed `ValidationError` /
`NotFoundError` / plain `Error` values raised by the library itself
also pass through unchanged. -/
theorem parse_error_translation (ne : NativeError) (d : String)
    (msg : String) (issues : List Issue) :
    (ne.details = some d → (ne.code = 9 ∧ strContains d "requires an index" = true) →
        parseFirestoreError (.native ne)
          = .indexRequired (extractIndexUrl d) (extractFields d))
    ∧ (ne.details = some d → ¬(ne.code = 9 ∧ strContains d "requires an index" = true) →
        parseFirestoreError (.native ne) = .native ne)
    ∧ (ne.details = none → parseFirestoreError (.native ne) = .native ne)
    ∧ parseFirestoreError (.notFound msg) = .notFound msg
    ∧ parseFirestoreError (.validation issues) = .validation issues
    ∧ parseFirestoreError (.jsError msg) = .jsError msg := by
  refine ⟨?_, ?_, ?_, rfl, rfl, rfl⟩
  · intro hd hc
    show (match ne.details with
      | some d =>
          if ne.code = 9 ∧ strContains d "requires an index" = true then
            AppError.indexRequired (extractIndexUrl d) (extractFields d)
          else AppError.native ne
      | none => AppError.native ne) = _
    rw [hd]
    show (if ne.code = 9 ∧ strContains d "requires an index" = true then _ else _) = _
    rw [if_pos hc]
  · intro hd hc
    show (match ne.details with
      | some d =>
          if ne.code = 9 ∧ strContains d "requires an index" = true then
            AppError.indexRequired (extractIndexUrl d) (extractFields d)
          else AppError.native ne
      | none => AppError.native ne) = _
    rw [hd]
    show (if ne.code = 9 ∧ strContains d "requires an index" = true then _ else _) = _
    rw [if_neg hc]
  · intro hd
    show (match ne.details with
      | some d =>
          if ne.code = 9 ∧ strContains d "requires an index" = true then
            AppError.indexRequired (extractIndexUrl d) (extractFields d)
          else AppError.native ne
      | none => AppError.native ne) = _
    rw [hd]

/-- C7 witness: the index-required native error is translated into the
typed `FirestoreIndexError` with the console URL and the implicated
fields; the permission-denied native error passes through unchanged. -/
theorem parse_error_translation_witness :
    parseFirestoreError (.native exNativeIndex)
      = .indexRequired
          "https://console.firebase.google.com/v1/r/project/demo/firestore/indexes?create=Ck"
          ["status", "createdAt"]
    ∧ parseFirestoreError (.native exNativeDenied) = .native exNativeDenied := by
  constructor
  · have h := (parse_error_translation exNativeIndex exIndexDetails "" []).1 rfl
      ⟨by decide, by decide⟩
    rw [h]
    decide
  · exact (parse_error_translation exNativeDenied
      "7 PERMISSION_DENIED: Missing or insufficient permissions." "" []).2.1 rfl (by decide)

/-! ## Claim theorem: bulkSoftDelete (C8) -/

/-- C8. The claim (like the spec's "same existence-skipping semantics
as delete") says `bulkSoftDelete` stamps `deletedAt` only on documents
that exist and silently skips missing ids.  The code's write loop
`for(const id of ids)` registers a `batch.update` for *every* input id:
on `["a", "b"]` with only `"a"` existing it issues two update actions —
one aimed at the missing `"b"` — so the batch commit fails with the
store's NOT_FOUND error, nothing is stamped, the call errors instead of
returning 1, and the after-hook never fires.  The sibling `bulkDelete`,
which loops over the fetched existing documents, returns 1 on the same
input as the claim describes. -/
theorem bulkSoftDelete_writes_missing_ids :
    bulkSoftDelete exStoreBulk ["a", "b"] exStamp
      = { res := .error (.native ⟨5, some "NOT_FOUND: no document to update: b"⟩),
          store := exStoreBulk,
          commits := [[.update "a" [("deletedAt", .str exStamp)],
                       .update "b" [("deletedAt", .str exStamp)]]],
          fired := [(.beforeBulkSoftDelete,
            .softDelBulk ["a"]
              [[("name", .str "Alice"), ("deletedAt", .null), ("id", .str "a")]] exStamp)] }
    ∧ (bulkSoftDelete exStoreBulk ["a", "b"] exStamp).commits.flatten.length = 2
    ∧ (bulkDelete exStoreBulk ["a", "b"]).res = .ok 1 := by
  refine ⟨by decide, by decide, by decide⟩

/-! ## Claim theorems: update (C9) -/

/-- C9 counterexample. `update` computes the merged result and persists
and returns it, but the before-update hook receives only the validated
partial plus the id — not the merged draft: on a stored document with
fields `a`, `b` and the partial `\x7b b: 3 \x7d`, the hook payload lacks
`a` while the merged result (which the call returns) has it. -/
theorem update_before_hook_gets_partial :
    (SpacelabsOrm.update none exStoreUpd "d1" exPatchUpd).fired
      = [(.beforeUpdate, .one [("b", .num 3), ("id", .str "d1")]),
         (.afterUpdate, .one [("a", .num 1), ("b", .num 3),
            ("deletedAt", .null), ("id", .str "d1")])]
    ∧ (SpacelabsOrm.update none exStoreUpd "d1" exPatchUpd).res
        = .ok [("a", .num 1), ("b", .num 3), ("deletedAt", .null), ("id", .str "d1")]
    ∧ ([("b", .num 3), ("id", .str "d1")] : Doc)
        ≠ [("a", .num 1), ("b", .num 3), ("deletedAt", .null), ("id", .str "d1")] := by
  refine ⟨by decide, by decide, by decide⟩

/-- C9 (amended). `update` fails with `NotFoundError` when the target is
absent; otherwise it shallow-merges the validated partial (plus id) onto
the stored document — every top-level key of the partial replaces the
same-named stored key, all other stored keys survive — persists the
merge with merge-write semantics, returns it, and fires `afterUpdate`
with it; the `beforeUpdate` hook, however, receives the validated
partial plus id, not the merged draft. -/
theorem update_shallow_merge_semantics (v : Option Validator) (store : Store)
    (id : String) (patch : Doc) :
    (store.get? id = none →
        SpacelabsOrm.update v store id patch
          = { res := .error (.notFound ("Document with id " ++ id ++ " not found")),
              store := store, fired := [] })
    ∧ (∀ snap valid, store.get? id = some snap → runParseUpdate v patch = .ok valid →
        SpacelabsOrm.update v store id patch
          = { res := .ok (mergeDocs snap (setField valid "id" (.str id))),
              store := store.set id
                (mergeDocs snap (mergeDocs snap (setField valid "id" (.str id)))),
              fired := [(.beforeUpdate, .one (setField valid "id" (.str id))),
                (.afterUpdate, .one (mergeDocs snap (setField valid "id" (.str id))))] }
        ∧ (((setField valid "id" (.str id)).map Prod.fst).Nodup →
            ∀ k, getField (mergeDocs snap (setField valid "id" (.str id))) k
              = match getField (setField valid "id" (.str id)) k with
                | some w => some w
                | none => getField snap k)) := by
  constructor
  · intro h
    unfold update
    rw [h]
  · intro snap valid hsnap hvalid
    constructor
    · unfold update
      rw [hsnap, hvalid]
    · intro hnd k
      exact getField_mergeDocs snap (setField valid "id" (.str id)) k hnd

/-- C9 witness: the concrete update of field `b` on document `d1` —
merged result returned and persisted, stored key `a` surviving, partial
key `b` replaced. -/
theorem update_shallow_merge_semantics_witness :
    SpacelabsOrm.update none exStoreUpd "d1" exPatchUpd
      = { res := .ok (mergeDocs [("a", .num 1), ("b", .num 2), ("deletedAt", .null)]
            (setField exPatchUpd "id" (.str "d1"))),
          store := Store.set exStoreUpd "d1"
            (mergeDocs [("a", .num 1), ("b", .num 2), ("deletedAt", .null)]
              (mergeDocs [("a", .num 1), ("b", .num 2), ("deletedAt", .null)]
                (setField exPatchUpd "id" (.str "d1")))),
          fired := [(.beforeUpdate, .one (setField exPatchUpd "id" (.str "d1"))),
            (.afterUpdate, .one (mergeDocs [("a", .num 1), ("b", .num 2), ("deletedAt", .null)]
              (setField exPatchUpd "id" (.str "d1"))))] }
    ∧ getField (mergeDocs [("a", .num 1), ("b", .num 2), ("deletedAt", .null)]
        (setField exPatchUpd "id" (.str "d1"))) "a" = some (.num 1) := by
  obtain ⟨heq, hmerge⟩ := (update_shallow_merge_semantics none exStoreUpd "d1" exPatchUpd).2
    [("a", .num 1), ("b", .num 2), ("deletedAt", .null)] exPatchUpd (by decide) (by decide)
  refine ⟨heq, ?_⟩
  rw [hmerge (by decide) "a"]
  decide

/-! ## Claim theorems: upsert (C10) -/

/-- C10 counterexample. `upsert` decides via `getById` with its default
soft-delete filtering, so a document that exists but is soft-deleted
takes the *create* path, not the update path the claim requires: on the
soft-deleted `u1`, upsert fires create hooks (not update hooks),
overwrites the whole document (dropping the stored `extra` field), and
resets `deletedAt` to null — all unlike `update` on the same input. -/
theorem upsert_softdeleted_takes_create_path :
    (Store.get? exStoreUps "u1").isSome = true
    ∧ isSoftDeleted ((Store.get? exStoreUps "u1").getD []) = true
    ∧ upsert none exStoreUps "u1" exDataUps ≠ SpacelabsOrm.update none exStoreUps "u1" exDataUps
    ∧ (upsert none exStoreUps "u1" exDataUps).fired.map Prod.fst
        = [.beforeCreate, .afterCreate]
    ∧ (SpacelabsOrm.update none exStoreUps "u1" exDataUps).fired.map Prod.fst
        = [.beforeUpdate, .afterUpdate]
    ∧ getField ((Store.get? (upsert none exStoreUps "u1" exDataUps).store "u1").getD [])
        "extra" = none
    ∧ getField ((Store.get? (upsert none exStoreUps "u1" exDataUps).store "u1").getD [])
        "deletedAt" = some .null := by
  refine ⟨by decide, by decide, by decide, by decide, by decide, by decide, by decide⟩

/-- C10 (amended). `upsert` behaves as `update` exactly when a document
with the id exists *and is not soft-deleted*; when the id is absent — or
the existing document is soft-deleted, which `getById`'s default
filtering reports as absent — it behaves as create with the
caller-supplied identifier: a full (non-merge) `set` of the validated
data stamped `deletedAt: null`, with create hooks fired. -/
theorem upsert_update_or_create_semantics (v : Option Validator) (store : Store)
    (id : String) (data : Doc) :
    (∀ d, getById store id false = some d →
        upsert v store id data = SpacelabsOrm.update v store id data)
    ∧ (getById store id false = none → ∀ valid, runParseCreate v data = .ok valid →
        upsert v store id data
          = { res := .ok (setField (setField valid "deletedAt" .null) "id" (.str id)),
              store := store.set id (setField valid "deletedAt" .null),
              fired := [(.beforeCreate,
                  .one (setField (setField valid "deletedAt" .null) "id" (.str id))),
                (.afterCreate,
                  .one (setField (setField valid "deletedAt" .null) "id" (.str id)))] })
    ∧ (∀ d, store.get? id = some d → isSoftDeleted d = true →
        getById store id false = none) := by
  refine ⟨?_, ?_, ?_⟩
  · intro d h
    unfold upsert
    rw [h]
  · intro h valid hv
    unfold upsert
    rw [h, hv]
  · intro d h hsd
    unfold getById
    rw [h]
    simp [hsd]

/-- C10 witness: on the soft-deleted `u1`, `getById` reports absence,
and applying the amended semantics yields the create-with-caller-id
outcome. -/
theorem upsert_update_or_create_semantics_witness :
    getById exStoreUps "u1" false = none
    ∧ upsert none exStoreUps "u1" exDataUps
      = { res := .ok (setField (setField exDataUps "deletedAt" .null) "id" (.str "u1")),
          store := Store.set exStoreUps "u1" (setField exDataUps "deletedAt" .null),
          fired := [(.beforeCreate,
              .one (setField (setField exDataUps "deletedAt" .null) "id" (.str "u1"))),
            (.afterCreate,
              .one (setField (setField exDataUps "deletedAt" .null) "id" (.str "u1")))] } := by
  have h0 : getById exStoreUps "u1" false = none :=
    (upsert_update_or_create_semantics none exStoreUps "u1" exDataUps).2.2
      [("name", .str "old"), ("extra", .num 5), ("deletedAt", .str "2024-01-01T00:00:00.000Z")]
      (by decide) (by decide)
  exact ⟨h0,
    (upsert_update_or_create_semantics none exStoreUps "u1" exDataUps).2.1 h0
      exDataUps (by decide)⟩

end SpacelabsOrm
